import Mathlib

/-!
Verification of the agentic RAG pipeline: a shallow embedding of the
chunking algorithm (`chunking.py`), the persistent vector store
(`vectordb.py`), the deterministic chunk fingerprint (`ingest.py`), and the
context assembly (`rag_agent.py`), with theorems settling the specified
properties.

Conventions:
- Python strings are `List Char`; Python ints are `Int` (arbitrary
  precision, as in Python); byte strings are `List Nat` (each < 256).
- The `while` loop of `chunk_text` is embedded with explicit fuel; `none`
  means the loop has not finished within the given fuel.  Fuel
  `length + 1` is proved sufficient whenever `chunk_size ≥ 1`.
- Embedding-matrix entries are `ℚ`.  The floating-point cosine-similarity
  computation (numpy float32) is abstracted: `query` takes the similarity
  vector `sims` and the index permutation `perm` produced by `np.argsort`
  as parameters; `argsortOK` captures the numpy contract for the default
  (unstable) quicksort: the result is a permutation of the indices that
  puts the similarities in weakly descending order.  Tie order is NOT
  specified by that contract.
-/

/-- Python `str.strip()`: drop whitespace from both ends. -/
def pyStrip (s : List Char) : List Char :=
  ((s.dropWhile Char.isWhitespace).reverse.dropWhile Char.isWhitespace).reverse

/-- Python `text[a:b]` for `0 ≤ a, b` (the only regime reachable in the
`chunk_text` loop, where `0 ≤ start ≤ end`): characters at positions
`a, …, b-1`, clamped to the string. -/
def pySlice (s : List Char) (a b : Int) : List Char :=
  (s.take b.toNat).drop a.toNat

/-- The input normalisation of `chunk_text`:
`text.replace("\r", "").strip()`. -/
def normalizeText (s : List Char) : List Char :=
  pyStrip (s.filter (fun c => c ≠ '\r'))

/-- The `while start < n` loop of `chunk_text` (src/chunking.py, lines
15–32), one fuel unit per loop-condition check.  State: current `start`
and the accumulated `chunks`. -/
def chunkLoop (t : List Char) (cs ov : Int) : Nat → Int → List (List Char) →
    Option (List (List Char))
  | 0, _, _ => none
  | fuel + 1, start, chunks =>
    if start < (t.length : Int) then
      let e := min (start + cs) (t.length : Int)
      let chunk := pyStrip (pySlice t start e)
      let chunks' := if chunk = [] then chunks else chunks ++ [chunk]
      if (t.length : Int) ≤ e then some chunks'
      else
        let ns := e - ov
        chunkLoop t cs ov fuel (if ns ≤ start then e else ns) chunks'
    else some chunks

/-- The function `chunk_text(text, chunk_size, overlap)` (src/chunking.py):
normalise,
return `[]` on empty, coerce `overlap` when `overlap >= chunk_size`, then
run the window loop with the given fuel. -/
def chunk_text (text : List Char) (cs ov : Int) (fuel : Nat) :
    Option (List (List Char)) :=
  let t := normalizeText text
  if t = [] then some []
  else
    let ov' := if cs ≤ ov then max 0 (Int.fdiv cs 5) else ov
    chunkLoop t cs ov' fuel 0 []

/-- The run of `chunk_text` with fuel `length + 1`, proved sufficient
whenever the chunk size is at least 1. -/
def chunk_text_run (text : List Char) (cs ov : Int) :
    Option (List (List Char)) :=
  chunk_text text cs ov ((normalizeText text).length + 1)

/-- The same loop instrumented to record the index window `[start, e)` of
every emitted (non-empty after strip) chunk instead of its text.  Control
flow is identical to `chunkLoop`. -/
def chunkLoopSpans (t : List Char) (cs ov : Int) : Nat → Int → List (Int × Int) →
    Option (List (Int × Int))
  | 0, _, _ => none
  | fuel + 1, start, spans =>
    if start < (t.length : Int) then
      let e := min (start + cs) (t.length : Int)
      let chunk := pyStrip (pySlice t start e)
      let spans' := if chunk = [] then spans else spans ++ [(start, e)]
      if (t.length : Int) ≤ e then some spans'
      else
        let ns := e - ov
        chunkLoopSpans t cs ov fuel (if ns ≤ start then e else ns) spans'
    else some spans

/-- Variant of `chunk_text` whose emitted chunks are replaced by their index windows. -/
def chunk_spans (text : List Char) (cs ov : Int) (fuel : Nat) :
    Option (List (Int × Int)) :=
  let t := normalizeText text
  if t = [] then some []
  else
    let ov' := if cs ≤ ov then max 0 (Int.fdiv cs 5) else ov
    chunkLoopSpans t cs ov' fuel 0 []

/-- The run of `chunk_spans` with the same sufficient fuel. -/
def chunk_spans_run (text : List Char) (cs ov : Int) :
    Option (List (Int × Int)) :=
  chunk_spans text cs ov ((normalizeText text).length + 1)

/-- Position `p` lies in the half-open window `sp`. -/
def inSpan (sp : Int × Int) (p : Nat) : Prop :=
  sp.1 ≤ (p : Int) ∧ (p : Int) < sp.2

/-- Position `p` is covered by one of the windows. -/
def coveredBy (spans : List (Int × Int)) (p : Nat) : Prop :=
  ∃ sp ∈ spans, inSpan sp p

instance (sp : Int × Int) (p : Nat) : Decidable (inSpan sp p) := by
  unfold inSpan; infer_instance

instance (spans : List (Int × Int)) (p : Nat) : Decidable (coveredBy spans p) := by
  unfold coveredBy; infer_instance

/-! ### VectorDB (src/vectordb.py) -/

/-- One line of the record log `<collection>_meta.jsonl`:
`{"id": ..., "document": ..., "metadata": ...}`.  Metadata is an opaque
JSON object, kept as a type parameter `M`. -/
structure MetaRec (M : Type) where
  id : List Char
  document : List Char
  metadata : M
deriving DecidableEq

/-- The two persisted artifacts of a collection (`meta_path`, `emb_path`);
`none` means the file is absent.  Matrix entries are `ℚ`, abstracting
numpy float32. -/
structure Persisted (M : Type) where
  meta : Option (List (MetaRec M))
  emb : Option (List (List ℚ))
deriving DecidableEq

/-- The in-memory state of a `VectorDB` instance: `_ids`, `_docs`,
`_metas`, `_emb`. -/
structure VectorDB (M : Type) where
  ids : List (List Char)
  docs : List (List Char)
  metas : List M
  emb : Option (List (List ℚ))
deriving DecidableEq

/-- The method `VectorDB._load` (src/vectordb.py, lines 34–55): read the record log
line by line into the three parallel lists, read the matrix if the file
exists, then the sanity check — if the matrix is missing while records
exist, or the row count differs from the record count, reset the
in-memory state and delete both files. -/
def VectorDB.load (M : Type) (fs : Persisted M) : VectorDB M × Persisted M :=
  let recs := fs.meta.getD []
  let db : VectorDB M :=
    ⟨recs.map MetaRec.id, recs.map MetaRec.document,
      recs.map MetaRec.metadata, fs.emb⟩
  if (db.emb = none ∧ 0 < db.ids.length) ∨
      (db.emb ≠ none ∧ (db.emb.getD []).length ≠ db.ids.length) then
    (⟨[], [], [], none⟩, ⟨none, none⟩)
  else (db, fs)

/-- The method `VectorDB.add` (src/vectordb.py, lines 57–75): append one JSON line per
`zip(ids, documents, metadatas)` triple to the record log (creating the
file if absent), extend the three in-memory lists, extend the in-memory
matrix (`emb_new` if it was `None`, else `vstack`), and rewrite the matrix
file in full. -/
def VectorDB.add (M : Type) (db : VectorDB M) (fs : Persisted M)
    (ids : List (List Char)) (embeddings : List (List ℚ))
    (documents : List (List Char)) (metadatas : List M) :
    VectorDB M × Persisted M :=
  let newRecs := (ids.zip (documents.zip metadatas)).map
    (fun x => MetaRec.mk x.1 x.2.1 x.2.2)
  let meta' := some (fs.meta.getD [] ++ newRecs)
  let emb' := match db.emb with
    | none => embeddings
    | some m => m ++ embeddings
  (⟨db.ids ++ ids, db.docs ++ documents, db.metas ++ metadatas, some emb'⟩,
   ⟨meta', some emb'⟩)

/-- The result shape of `query`: singleton outer lists, as the source
returns `{"documents": [docs], "metadatas": [metas], "distances":
[distances]}`. -/
structure QueryRes (M : Type) where
  documents : List (List (List Char))
  metadatas : List (List M)
  distances : List (List ℚ)
deriving DecidableEq

/-- The method `VectorDB.query` (src/vectordb.py, lines 77–89).  The floating-point
cosine computation `_cosine_sim_matrix(q, self._emb)` and
`np.argsort(-sims)` are abstracted as the parameters `sims` (one
similarity per stored row) and `perm` (the index order argsort returned);
`argsortOK` below is the contract numpy guarantees for them.  The method
only reads the instance and the files; the (unchanged) state is returned
alongside the result. -/
def VectorDB.query (M : Type) [Inhabited M] (db : VectorDB M)
    (fs : Persisted M) (sims : List ℚ) (perm : List Nat) (top_k : Nat) :
    (VectorDB M × Persisted M) × QueryRes M :=
  if db.emb = none ∨ (db.emb.getD []).length = 0 then
    ((db, fs), ⟨[[]], [[]], [[]]⟩)
  else
    let idx := perm.take top_k
    ((db, fs),
      ⟨[idx.map (fun i => db.docs.getD i [])],
       [idx.map (fun i => db.metas.getD i default)],
       [idx.map (fun i => 1 - sims.getD i 0)]⟩)

/-- The contract numpy documents for `idx = np.argsort(-sims)` with the
default quicksort (`kind` not passed): `idx` is a permutation of
`0..n-1` that puts `-sims` in weakly ascending order, i.e. `sims` in
weakly descending order.  The order of equal entries is NOT specified
(the default quicksort is not stable). -/
def argsortOK (sims : List ℚ) (perm : List Nat) : Prop :=
  perm.Perm (List.range sims.length) ∧
    (perm.map (fun i => sims.getD i 0)).Sorted (· ≥ ·)

/-- All record counts (ids, documents, metadatas) agree with the
embedding-matrix row count (0 rows when the matrix is `None`). -/
def VectorDB.inv (M : Type) (db : VectorDB M) : Prop :=
  db.ids.length = (db.emb.getD []).length ∧
  db.docs.length = db.ids.length ∧ db.metas.length = db.ids.length

/-! ### Context assembly (src/rag_agent.py) -/

/-- The metadata fields `format_context` reads via `m.get(...)`; `none`
models a missing key or JSON null (Python `None`). -/
structure ChunkMeta where
  source : Option (List Char)
  page : Option Int
deriving DecidableEq

/-- Python str of the optional source field: a missing value prints as `None`. -/
def pyStrOfOptStr : Option (List Char) → List Char
  | none => "None".data
  | some s => s

/-- Python str of the optional page field: a missing value prints as `None`. -/
def pyStrOfOptInt : Option Int → List Char
  | none => "None".data
  | some i => (toString i).data

/-- The citation tag: a bracket, the source field, the text `, page `,
the page field, and a closing bracket. -/
def cite (m : ChunkMeta) : List Char :=
  "[".data ++ pyStrOfOptStr m.source ++ ", page ".data ++
    pyStrOfOptInt m.page ++ "]".data

/-- The tagged chunk: the citation tag, a newline, the document text,
and a final newline. -/
def taggedChunk (d : List Char) (m : ChunkMeta) : List Char :=
  cite m ++ '\n' :: (d ++ ['\n'])

/-- The accumulation loop of `format_context` (src/rag_agent.py, lines
25–35) over `zip(docs, metas, distances)`: `total` is the running
character count, and the loop breaks before the first tagged chunk that
would push `total` past `max_chars`.  The distance component is unused in
the loop body (only the zip truncation sees it). -/
def formatItems (max_chars : Nat) {α : Type} :
    List (List Char × ChunkMeta × α) → Nat → List (List Char)
  | [], _ => []
  | (d, m, _) :: rest, total =>
    if max_chars < total + (taggedChunk d m).length then []
    else taggedChunk d m ::
      formatItems max_chars rest (total + (taggedChunk d m).length)

/-- Python sep.join(items). -/
def joinSep (sep : List Char) : List (List Char) → List Char
  | [] => []
  | [x] => x
  | x :: xs => x ++ sep ++ joinSep sep xs

/-- The function `format_context(docs, metas, distances, max_chars=9000)`:
the items joined by a five-character separator line. -/
def format_context {α : Type} (docs : List (List Char))
    (metas : List ChunkMeta) (distances : List α)
    (max_chars : Nat := 9000) : List Char :=
  joinSep "\n---\n".data
    (formatItems max_chars (docs.zip (metas.zip distances)) 0)

/-! ### Deterministic chunk id (src/ingest.py)

`stable_id(source, page, text)` is the first 24 hex digits of the SHA-256
digest of the UTF-8 encoding of `source + str(page) + text`.  SHA-256
(`hashlib.sha256`) is implemented below over `Nat` bytes/32-bit words,
with word arithmetic taken modulo `2 ^ 32`. -/

/-- UTF-8 encoding of one unicode scalar value. -/
def utf8Bytes (c : Char) : List Nat :=
  let n := c.toNat
  if n < 0x80 then [n]
  else if n < 0x800 then [0xC0 + n / 0x40, 0x80 + n % 0x40]
  else if n < 0x10000 then
    [0xE0 + n / 0x1000, 0x80 + n / 0x40 % 0x40, 0x80 + n % 0x40]
  else
    [0xF0 + n / 0x40000, 0x80 + n / 0x1000 % 0x40,
     0x80 + n / 0x40 % 0x40, 0x80 + n % 0x40]

/-- Python `str.encode("utf-8")`. -/
def utf8Encode (s : List Char) : List Nat :=
  (s.map utf8Bytes).flatten

/-- Right-rotation of a 32-bit word. -/
def rotr32 (x n : Nat) : Nat :=
  (x / 2 ^ n + x % 2 ^ n * 2 ^ (32 - n)) % 2 ^ 32

def bigSigma0 (x : Nat) : Nat := rotr32 x 2 ^^^ rotr32 x 13 ^^^ rotr32 x 22

def bigSigma1 (x : Nat) : Nat := rotr32 x 6 ^^^ rotr32 x 11 ^^^ rotr32 x 25

def smallSigma0 (x : Nat) : Nat := rotr32 x 7 ^^^ rotr32 x 18 ^^^ (x >>> 3)

def smallSigma1 (x : Nat) : Nat := rotr32 x 17 ^^^ rotr32 x 19 ^^^ (x >>> 10)

/-- The 64 SHA-256 round constants. -/
def sha256K : List Nat :=
  [1116352408, 1899447441, 3049323471, 3921009573,
   961987163, 1508970993, 2453635748, 2870763221,
   3624381080, 310598401, 607225278, 1426881987,
   1925078388, 2162078206, 2614888103, 3248222580,
   3835390401, 4022224774, 264347078, 604807628,
   770255983, 1249150122, 1555081692, 1996064986,
   2554220882, 2821834349, 2952996808, 3210313671,
   3336571891, 3584528711, 113926993, 338241895,
   666307205, 773529912, 1294757372, 1396182291,
   1695183700, 1986661051, 2177026350, 2456956037,
   2730485921, 2820302411, 3259730800, 3345764771,
   3516065817, 3600352804, 4094571909, 275423344,
   430227734, 506948616, 659060556, 883997877,
   958139571, 1322822218, 1537002063, 1747873779,
   1955562222, 2024104815, 2227730452, 2361852424,
   2428436474, 2756734187, 3204031479, 3329325298]

/-- The SHA-256 initial hash value. -/
def sha256H0 : List Nat :=
  [1779033703, 3144134277, 1013904242, 2773480762,
   1359893119, 2600822924, 528734635, 1541459225]

/-- The `k` bytes of `n`, big-endian. -/
def beBytes : Nat → Nat → List Nat
  | 0, _ => []
  | k + 1, n => beBytes k (n / 256) ++ [n % 256]

/-- SHA-256 padding: `0x80`, zero bytes to 56 mod 64, then the bit length
as 8 big-endian bytes. -/
def sha256Pad (msg : List Nat) : List Nat :=
  msg ++ [0x80] ++ List.replicate ((119 - msg.length % 64) % 64) 0 ++
    beBytes 8 (8 * msg.length)

/-- Big-endian 32-bit words from bytes. -/
def beWords : List Nat → List Nat
  | b0 :: b1 :: b2 :: b3 :: rest =>
    (((b0 * 256 + b1) * 256 + b2) * 256 + b3) :: beWords rest
  | _ => []

/-- Split the padded message into 64-byte blocks. -/
def chunk64 : List Nat → List (List Nat)
  | [] => []
  | b :: bytes => (b :: bytes).take 64 :: chunk64 ((b :: bytes).drop 64)
termination_by l => l.length
decreasing_by simp [List.length_drop]; omega

/-- Extend the 16-word schedule by `k` further words. -/
def sha256Extend (w : List Nat) : Nat → List Nat
  | 0 => w
  | k + 1 =>
    sha256Extend (w ++ [(smallSigma1 (w.getD (w.length - 2) 0) +
      w.getD (w.length - 7) 0 + smallSigma0 (w.getD (w.length - 15) 0) +
      w.getD (w.length - 16) 0) % 2 ^ 32]) k

/-- One compression round on the state `[a, b, c, d, e, f, g, h]`. -/
def sha256Round (st : List Nat) (k w : Nat) : List Nat :=
  match st with
  | [a, b, c, d, e, f, g, h] =>
    let ch := (e &&& f) ^^^ ((e ^^^ 0xffffffff) &&& g)
    let maj := (a &&& b) ^^^ (a &&& c) ^^^ (b &&& c)
    let t1 := (h + bigSigma1 e + ch + k + w) % 2 ^ 32
    let t2 := (bigSigma0 a + maj) % 2 ^ 32
    [(t1 + t2) % 2 ^ 32, a, b, c, (d + t1) % 2 ^ 32, e, f, g]
  | _ => st

/-- Compress one 64-byte block into the running hash. -/
def sha256Compress (h : List Nat) (block : List Nat) : List Nat :=
  let w := sha256Extend (beWords block) 48
  let st := (sha256K.zip w).foldl (fun st kw => sha256Round st kw.1 kw.2) h
  (h.zip st).map (fun p => (p.1 + p.2) % 2 ^ 32)

/-- SHA-256 of a byte string, as eight 32-bit words. -/
def sha256 (msg : List Nat) : List Nat :=
  (chunk64 (sha256Pad msg)).foldl sha256Compress sha256H0

def hexNibble (n : Nat) : Char :=
  if n < 10 then Char.ofNat (48 + n) else Char.ofNat (87 + n)

def hexWord32 (w : Nat) : List Char :=
  [hexNibble (w / 2 ^ 28 % 16), hexNibble (w / 2 ^ 24 % 16),
   hexNibble (w / 2 ^ 20 % 16), hexNibble (w / 2 ^ 16 % 16),
   hexNibble (w / 2 ^ 12 % 16), hexNibble (w / 2 ^ 8 % 16),
   hexNibble (w / 2 ^ 4 % 16), hexNibble (w % 16)]

/-- Python `hashlib.sha256(...).hexdigest()`. -/
def sha256HexDigest (msg : List Nat) : List Char :=
  ((sha256 msg).map hexWord32).flatten

/-- The function `stable_id(source, page, text)` (src/ingest.py, lines
22–24): the first 24 hex digits of the SHA-256 of the UTF-8 bytes of
`source + str(page) + text` (a missing page prints as `None`). -/
def stable_id (source : List Char) (page : Option Int) (text : List Char) :
    List Char :=
  (sha256HexDigest (utf8Encode (source ++ pyStrOfOptInt page ++ text))).take 24

/-! ### Chunking lemmas and theorems (C1, C5, C6) -/

lemma pyStrip_length_le (s : List Char) : (pyStrip s).length ≤ s.length := by
  unfold pyStrip
  have h1 := (List.dropWhile_sublist (l := s) Char.isWhitespace).length_le
  have h2 := (List.dropWhile_sublist
    (l := (s.dropWhile Char.isWhitespace).reverse) Char.isWhitespace).length_le
  simp only [List.length_reverse] at h1 h2 ⊢
  omega

lemma pyStrip_eq_nil_all_ws (s : List Char) (h : pyStrip s = []) :
    ∀ c ∈ s, c.isWhitespace = true := by
  unfold pyStrip at h
  rw [List.reverse_eq_nil_iff, List.dropWhile_eq_nil_iff] at h
  intro c hc
  have hc2 : c ∈ s.takeWhile Char.isWhitespace ++ s.dropWhile Char.isWhitespace := by
    rw [List.takeWhile_append_dropWhile]; exact hc
  rcases List.mem_append.mp hc2 with h1 | h2
  · exact List.mem_takeWhile_imp h1
  · exact h c (List.mem_reverse.mpr h2)

lemma length_pySlice (s : List Char) (a b : Int) :
    (pySlice s a b).length = min b.toNat s.length - a.toNat := by
  simp [pySlice, List.length_drop, List.length_take]

lemma chunk_length_le (t : List Char) (start cs : Int) (h0 : 0 ≤ start)
    (hcs : 1 ≤ cs) (hlt : start < (t.length : Int)) :
    ((pyStrip (pySlice t start (min (start + cs) (t.length : Int)))).length : Int) ≤ cs := by
  have hs := pyStrip_length_le (pySlice t start (min (start + cs) (t.length : Int)))
  have hl := length_pySlice t start (min (start + cs) (t.length : Int))
  have he : (0:Int) ≤ min (start + cs) (t.length : Int) := by omega
  have h1 := Int.toNat_of_nonneg h0
  have h2 := Int.toNat_of_nonneg he
  omega

lemma chunkLoop_runs (t : List Char) (cs ov : Int) (hcs : 1 ≤ cs) :
    ∀ (m : Nat) (start : Int) (acc : List (List Char)),
      0 ≤ start → (t.length : Int) ≤ start + m →
      (∀ c ∈ acc, (c.length : Int) ≤ cs) →
      ∃ out, chunkLoop t cs ov (m + 1) start acc = some out ∧
        ∀ c ∈ out, (c.length : Int) ≤ cs := by
  intro m
  induction m with
  | zero =>
    intro start acc h0 hle hacc
    unfold chunkLoop
    rw [if_neg (by omega)]
    exact ⟨acc, rfl, hacc⟩
  | succ m ih =>
    intro start acc h0 hle hacc
    by_cases hlt : start < (t.length : Int)
    · have hacc' : ∀ c ∈ (if pyStrip (pySlice t start (min (start + cs) (t.length : Int))) = []
          then acc
          else acc ++ [pyStrip (pySlice t start (min (start + cs) (t.length : Int)))]),
          (c.length : Int) ≤ cs := by
        split
        · exact hacc
        · intro c hc
          rcases List.mem_append.mp hc with h1 | h2
          · exact hacc c h1
          · rw [List.mem_singleton.mp h2]
            exact chunk_length_le t start cs h0 hcs hlt
      by_cases hend : (t.length : Int) ≤ min (start + cs) (t.length : Int)
      · refine ⟨_, ?_, hacc'⟩
        unfold chunkLoop
        rw [if_pos hlt, if_pos hend]
      · have hmin : start + 1 ≤ min (start + cs) (t.length : Int) := by omega
        obtain ⟨out, hout, hprop⟩ := ih
          (if min (start + cs) (t.length : Int) - ov ≤ start
            then min (start + cs) (t.length : Int)
            else min (start + cs) (t.length : Int) - ov)
          (if pyStrip (pySlice t start (min (start + cs) (t.length : Int))) = []
            then acc
            else acc ++ [pyStrip (pySlice t start (min (start + cs) (t.length : Int)))])
          (by split <;> omega) (by split <;> omega) hacc'
        refine ⟨out, ?_, hprop⟩
        unfold chunkLoop
        rw [if_pos hlt, if_neg hend]
        exact hout
    · refine ⟨acc, ?_, hacc⟩
      unfold chunkLoop
      rw [if_neg hlt]

/-- With `chunk_size = 0` the loop makes no progress on a non-empty text:
the window is empty, `next_start = end = 0`, so no fuel suffices. -/
lemma chunkLoop_zero_cs_stuck : ∀ fuel : Nat, chunkLoop ['a'] 0 0 fuel 0 [] = none := by
  intro fuel
  induction fuel with
  | zero => rfl
  | succ n ih =>
    unfold chunkLoop
    norm_num [pySlice, pyStrip]
    exact ih

/-- C1 counterexample: at `text = "a"`, `chunk_size = 0`, `overlap = 0`,
the `chunk_text` loop does not finish even with fuel 300 (the supporting
lemma `chunkLoop_zero_cs_stuck` shows no fuel at all suffices: the loop
body forces `next_start = end = 0`, so the state never changes and the
Python loop runs forever). -/
theorem chunk_text_zero_cs_diverges : chunk_text ['a'] 0 0 300 = none := by
  show (if normalizeText ['a'] = [] then some [] else
    chunkLoop (normalizeText ['a']) 0
      (if (0:Int) ≤ 0 then max 0 (Int.fdiv 0 5) else 0) 300 0 []) = none
  rw [if_neg (by decide)]
  have hov : (if (0:Int) ≤ 0 then max 0 (Int.fdiv 0 5) else 0) = 0 := by norm_num
  have hnorm : normalizeText ['a'] = ['a'] := by decide
  rw [hov, hnorm]
  exact chunkLoop_zero_cs_stuck 300

/-- C1 (amended): for every text and overlap, and every `chunk_size ≥ 1`,
`chunk_text` terminates (fuel `length + 1` suffices) and every emitted
chunk has length at most `chunk_size`. -/
theorem chunk_text_terminates_len_le (text : List Char) (cs ov : Int)
    (hcs : 1 ≤ cs) :
    ∃ out, chunk_text_run text cs ov = some out ∧
      ∀ c ∈ out, (c.length : Int) ≤ cs := by
  unfold chunk_text_run chunk_text
  by_cases ht : normalizeText text = []
  · rw [if_pos ht]
    exact ⟨[], rfl, by simp⟩
  · rw [if_neg ht]
    exact chunkLoop_runs (normalizeText text)
      cs (if cs ≤ ov then max 0 (Int.fdiv cs 5) else ov) hcs
      (normalizeText text).length 0 [] le_rfl (by omega) (by simp)

/-- Witness for C1 at a concrete input. -/
theorem chunk_text_terminates_len_le_witness :
    ∃ out, chunk_text_run "hello world".data 4 1 = some out ∧
      ∀ c ∈ out, (c.length : Int) ≤ 4 :=
  chunk_text_terminates_len_le "hello world".data 4 1 (by norm_num)

/-- C5: whenever `overlap ≥ chunk_size`, the output of `chunk_text` is the
output of `chunk_text` called with the corrected overlap
`max 0 (chunk_size // 5)` (Python floor division), at every fuel. -/
theorem chunk_text_overlap_coerced (text : List Char) (cs ov : Int)
    (fuel : Nat) (h : cs ≤ ov) :
    chunk_text text cs ov fuel =
      chunk_text text cs (max 0 (Int.fdiv cs 5)) fuel := by
  unfold chunk_text
  by_cases ht : normalizeText text = []
  · rw [if_pos ht, if_pos ht]
  · rw [if_neg ht, if_neg ht, if_pos h]
    by_cases hc : cs ≤ max 0 (Int.fdiv cs 5)
    · rw [if_pos hc]
    · rw [if_neg hc]

/-- Witness for C5 at a concrete input. -/
theorem chunk_text_overlap_coerced_witness :
    chunk_text "abcdef".data 2 5 7 =
      chunk_text "abcdef".data 2 (max 0 (Int.fdiv 2 5)) 7 :=
  chunk_text_overlap_coerced "abcdef".data 2 5 7 (by norm_num)

/-- The character of `t` at position `p` belongs to the slice `t[a:b]`
whenever `a ≤ p < b` and `p` is in range. -/
lemma getD_mem_pySlice (t : List Char) (a b : Int) (p : Nat) (h0 : 0 ≤ a)
    (hap : a ≤ (p : Int)) (hpb : (p : Int) < b) (hpl : p < t.length) :
    t.getD p '\n' ∈ pySlice t a b := by
  apply List.getElem?_mem (n := p - a.toNat)
  unfold pySlice
  rw [List.getElem?_drop, List.getElem?_take]
  have hp1 : a.toNat + (p - a.toNat) = p := by omega
  rw [if_pos (by omega), hp1, List.getElem?_eq_getElem hpl,
    List.getD_eq_getElem t '\n' hpl]

/-- The window/chunk correspondence: running the loop on chunk texts is
running it on windows and then slicing-and-stripping each window. -/
lemma chunkLoop_eq_spans (t : List Char) (cs ov : Int) :
    ∀ (fuel : Nat) (start : Int) (spans : List (Int × Int)),
      chunkLoop t cs ov fuel start
          (spans.map (fun sp => pyStrip (pySlice t sp.1 sp.2))) =
        Option.map (List.map (fun sp => pyStrip (pySlice t sp.1 sp.2)))
          (chunkLoopSpans t cs ov fuel start spans) := by
  intro fuel
  induction fuel with
  | zero => intro start spans; rfl
  | succ n ih =>
    intro start spans
    unfold chunkLoop chunkLoopSpans
    dsimp only
    by_cases hstart : start < (t.length : Int)
    · rw [if_pos hstart, if_pos hstart]
      by_cases hc : pyStrip (pySlice t start (min (start + cs) (t.length : Int))) = []
      · rw [if_pos hc, if_pos hc]
        by_cases hend : (t.length : Int) ≤ min (start + cs) (t.length : Int)
        · rw [if_pos hend, if_pos hend]; rfl
        · rw [if_neg hend, if_neg hend]
          exact ih _ spans
      · rw [if_neg hc, if_neg hc]
        by_cases hend : (t.length : Int) ≤ min (start + cs) (t.length : Int)
        · rw [if_pos hend, if_pos hend]
          simp [List.map_append]
        · rw [if_neg hend, if_neg hend]
          have := ih (if min (start + cs) (t.length : Int) - ov ≤ start
              then min (start + cs) (t.length : Int)
              else min (start + cs) (t.length : Int) - ov)
            (spans ++ [(start, min (start + cs) (t.length : Int))])
          simpa [List.map_append] using this
    · rw [if_neg hstart, if_neg hstart]; rfl

/-- Coverage invariant for the window loop: with `0 ≤ overlap < chunk_size`
every non-whitespace position below the current `start` stays covered, and
at exit every non-whitespace position of the text is covered. -/
lemma chunkLoopSpans_cover (t : List Char) (cs ov : Int) (hov : 0 ≤ ov)
    (hlt : ov < cs) :
    ∀ (m : Nat) (start : Int) (spans : List (Int × Int)),
      0 ≤ start → (t.length : Int) ≤ start + m →
      (∀ p : Nat, (p : Int) < start → (t.getD p '\n').isWhitespace = false →
        coveredBy spans p) →
      ∃ out, chunkLoopSpans t cs ov (m + 1) start spans = some out ∧
        ∀ p : Nat, p < t.length → (t.getD p '\n').isWhitespace = false →
          coveredBy out p := by
  have hcs : 1 ≤ cs := by omega
  intro m
  induction m with
  | zero =>
    intro start spans h0 hle hinv
    unfold chunkLoopSpans
    rw [if_neg (by omega)]
    exact ⟨spans, rfl, fun p hp hw => hinv p (by omega) hw⟩
  | succ m ih =>
    intro start spans h0 hle hinv
    by_cases hstart : start < (t.length : Int)
    · have hcov' : ∀ p : Nat, (p : Int) < min (start + cs) (t.length : Int) →
          (t.getD p '\n').isWhitespace = false →
          coveredBy (if pyStrip (pySlice t start (min (start + cs) (t.length : Int))) = []
            then spans
            else spans ++ [(start, min (start + cs) (t.length : Int))]) p := by
        intro p hp hw
        by_cases hps : (p : Int) < start
        · obtain ⟨sp, hsp, hin⟩ := hinv p hps hw
          exact ⟨sp, by split <;> simp [hsp], hin⟩
        · by_cases hc : pyStrip (pySlice t start (min (start + cs) (t.length : Int))) = []
          · exfalso
            have hmem := getD_mem_pySlice t start (min (start + cs) (t.length : Int)) p
              h0 (by omega) hp (by omega)
            have := pyStrip_eq_nil_all_ws _ hc _ hmem
            rw [hw] at this
            exact Bool.false_ne_true this
          · rw [if_neg hc]
            exact ⟨(start, min (start + cs) (t.length : Int)),
              List.mem_append.mpr (Or.inr (List.mem_singleton.mpr rfl)),
              by omega, hp⟩
      by_cases hend : (t.length : Int) ≤ min (start + cs) (t.length : Int)
      · refine ⟨_, ?_, fun p hp hw => hcov' p (by omega) hw⟩
        unfold chunkLoopSpans
        dsimp only
        rw [if_pos hstart, if_pos hend]
      · obtain ⟨out, hout, hprop⟩ := ih
          (if min (start + cs) (t.length : Int) - ov ≤ start
            then min (start + cs) (t.length : Int)
            else min (start + cs) (t.length : Int) - ov)
          (if pyStrip (pySlice t start (min (start + cs) (t.length : Int))) = []
            then spans
            else spans ++ [(start, min (start + cs) (t.length : Int))])
          (by split <;> omega) (by split <;> omega)
          (by
            intro p hp hw
            refine hcov' p ?_ hw
            revert hp
            split <;> omega)
        refine ⟨out, ?_, hprop⟩
        unfold chunkLoopSpans
        dsimp only
        rw [if_pos hstart, if_neg hend]
        exact hout
    · refine ⟨spans, ?_, fun p hp hw => hinv p (by omega) hw⟩
      unfold chunkLoopSpans
      rw [if_neg hstart]

/-- C6 (amended): for `chunk_size > overlap ≥ 0`, the emitted chunks of
`chunk_text` are the slice-and-strip of the windows of `chunk_spans`, and
those windows cover every non-whitespace position of the normalized text
(whitespace-only windows are skipped by the `if chunk:` guard, so purely
whitespace positions between chunks may be uncovered). -/
theorem chunk_text_windows_cover (text : List Char) (cs ov : Int)
    (hov : 0 ≤ ov) (hlt : ov < cs) :
    ∃ spans, chunk_spans_run text cs ov = some spans ∧
      chunk_text_run text cs ov = some (spans.map
        (fun sp => pyStrip (pySlice (normalizeText text) sp.1 sp.2))) ∧
      ∀ p : Nat, p < (normalizeText text).length →
        ((normalizeText text).getD p '\n').isWhitespace = false →
        coveredBy spans p := by
  unfold chunk_spans_run chunk_spans chunk_text_run chunk_text
  by_cases ht : normalizeText text = []
  · rw [if_pos ht, if_pos ht]
    refine ⟨[], rfl, rfl, ?_⟩
    intro p hp
    rw [ht] at hp
    simp at hp
  · rw [if_neg ht, if_neg ht]
    have hcoerce : (if cs ≤ ov then max 0 (Int.fdiv cs 5) else ov) = ov :=
      if_neg (by omega)
    rw [hcoerce]
    obtain ⟨out, hout, hprop⟩ := chunkLoopSpans_cover (normalizeText text) cs ov
      hov hlt (normalizeText text).length 0 []
      le_rfl (by omega) (fun p hp hw => absurd hp (by omega))
    refine ⟨out, hout, ?_, hprop⟩
    have hcorr := chunkLoop_eq_spans (normalizeText text) cs ov
      ((normalizeText text).length + 1) 0 []
    rw [hout] at hcorr
    simpa using hcorr

/-- Witness for C6 at a concrete input. -/
theorem chunk_text_windows_cover_witness :
    ∃ spans, chunk_spans_run "hello world".data 4 1 = some spans ∧
      chunk_text_run "hello world".data 4 1 = some (spans.map
        (fun sp => pyStrip (pySlice (normalizeText "hello world".data) sp.1 sp.2))) ∧
      ∀ p : Nat, p < (normalizeText "hello world".data).length →
        ((normalizeText "hello world".data).getD p '\n').isWhitespace = false →
        coveredBy spans p :=
  chunk_text_windows_cover "hello world".data 4 1 (by norm_num) (by norm_num)

/-- C6 counterexample: at `text = "a b"`, `chunk_size = 1`, `overlap = 0`
(which satisfies `chunk_size > overlap ≥ 0`), the emitted chunks' windows
are `[0,1)` and `[2,3)`: position 1 of the normalized text (the space,
whose whitespace-only window is dropped) is covered by no emitted chunk,
so the ranges do not cover the full normalized text. -/
theorem chunk_spans_gap_cex :
    chunk_spans_run "a b".data 1 0 = some [(0, 1), (2, 3)] ∧
    ¬ coveredBy [(0, 1), (2, 3)] 1 ∧
    1 < (normalizeText "a b".data).length := by
  refine ⟨by decide, by decide, by decide⟩

/-! ### VectorDB theorems (C2, C3, C4, C8, C10) -/

/-- C3: whenever the record log is non-empty but the matrix file is
absent, or the matrix row count differs from the record count, `load`
resets the in-memory state to empty and deletes both persisted files. -/
theorem load_resets_on_mismatch (M : Type) (fs : Persisted M)
    (h : (fs.emb = none ∧ 0 < (fs.meta.getD []).length) ∨
      (∃ m, fs.emb = some m ∧ m.length ≠ (fs.meta.getD []).length)) :
    VectorDB.load M fs = (⟨[], [], [], none⟩, ⟨none, none⟩) := by
  unfold VectorDB.load
  dsimp only
  rw [if_pos]
  simp only [List.length_map]
  rcases h with ⟨h1, h2⟩ | ⟨m, h1, h2⟩
  · exact Or.inl ⟨h1, h2⟩
  · refine Or.inr ⟨by simp [h1], ?_⟩
    rw [h1]
    exact h2

/-- Witness for C3: a record log with 5 lines and a matrix with 4 rows. -/
theorem load_resets_on_mismatch_witness :
    VectorDB.load Unit
      ⟨some (List.replicate 5 ⟨['a'], ['d'], ()⟩),
        some (List.replicate 4 [(1 : ℚ)])⟩ =
      (⟨[], [], [], none⟩, ⟨none, none⟩) :=
  load_resets_on_mismatch Unit _
    (Or.inr ⟨List.replicate 4 [(1 : ℚ)], rfl, by decide⟩)

/-- C4: `add` preserves the record-count = row-count invariant whenever
its four inputs have equal length, and `load` establishes the invariant
from every persisted state. -/
theorem add_load_inv (M : Type) (db : VectorDB M) (fs fs2 : Persisted M)
    (ids : List (List Char)) (embeddings : List (List ℚ))
    (documents : List (List Char)) (metadatas : List M)
    (hinv : VectorDB.inv M db)
    (h1 : embeddings.length = ids.length) (h2 : documents.length = ids.length)
    (h3 : metadatas.length = ids.length) :
    VectorDB.inv M (VectorDB.add M db fs ids embeddings documents metadatas).1 ∧
    VectorDB.inv M (VectorDB.load M fs2).1 := by
  obtain ⟨ha, hb, hc⟩ := hinv
  constructor
  · unfold VectorDB.add VectorDB.inv
    dsimp only
    cases hemb : db.emb with
    | none =>
      rw [hemb] at ha
      simp only [Option.getD_none, List.length_nil] at ha
      simp only [Option.getD_some, List.length_append]
      omega
    | some m =>
      rw [hemb] at ha
      simp only [Option.getD_some] at ha
      simp only [Option.getD_some, List.length_append]
      omega
  · unfold VectorDB.load VectorDB.inv
    dsimp only
    split
    · simp
    · rename_i hcond
      push_neg at hcond
      obtain ⟨hc1, hc2⟩ := hcond
      simp only [List.length_map]
      refine ⟨?_, by trivial, by trivial⟩
      cases hemb : fs2.emb with
      | none =>
        have hn := hc1 hemb
        simp only [List.length_map] at hn
        simp only [hemb, Option.getD_none, List.length_nil]
        omega
      | some m =>
        have hm := hc2 (by simp [hemb])
        simp only [hemb, Option.getD_some, List.length_map] at hm ⊢
        omega

/-- Witness for C4 at a concrete store, add call, and persisted state. -/
theorem add_load_inv_witness :
    VectorDB.inv Unit (VectorDB.add Unit ⟨[], [], [], none⟩ ⟨none, none⟩
      [['a']] [[(1 : ℚ)]] [['d']] [()]).1 ∧
    VectorDB.inv Unit (VectorDB.load Unit
      ⟨some [⟨['a'], ['d'], ()⟩], some [[(1 : ℚ)]]⟩).1 :=
  add_load_inv Unit ⟨[], [], [], none⟩ ⟨none, none⟩
    ⟨some [⟨['a'], ['d'], ()⟩], some [[(1 : ℚ)]]⟩
    [['a']] [[(1 : ℚ)]] [['d']] [()]
    (by constructor <;> simp) rfl rfl rfl

/-- C8: querying an empty store (no stored records, matrix consistent
with that) returns empty documents, metadatas, and distances; `query` is
total, so no error is raised. -/
theorem query_empty_store (M : Type) [Inhabited M] (db : VectorDB M)
    (fs : Persisted M) (sims : List ℚ) (perm : List Nat) (top_k : Nat)
    (hids : db.ids = []) (hrows : db.ids.length = (db.emb.getD []).length) :
    (VectorDB.query M db fs sims perm top_k).2 = ⟨[[]], [[]], [[]]⟩ := by
  unfold VectorDB.query
  rw [if_pos]
  refine Or.inr ?_
  rw [hids] at hrows
  simp only [List.length_nil] at hrows
  omega

/-- Witness for C8 at a concrete empty store. -/
theorem query_empty_store_witness :
    (VectorDB.query Unit ⟨[], [], [], none⟩ ⟨none, none⟩ [1] [0] 6).2 =
      ⟨[[]], [[]], [[]]⟩ :=
  query_empty_store Unit ⟨[], [], [], none⟩ ⟨none, none⟩ [1] [0] 6 rfl rfl

/-- C10: `query` never changes the in-memory store or the persisted
files: the state it returns is exactly the state it was given. -/
theorem query_frame (M : Type) [Inhabited M] (db : VectorDB M)
    (fs : Persisted M) (sims : List ℚ) (perm : List Nat) (top_k : Nat) :
    (VectorDB.query M db fs sims perm top_k).1 = (db, fs) := by
  unfold VectorDB.query
  split <;> rfl

lemma map_getD_range {α : Type} (l : List α) (d : α) :
    (List.range l.length).map (fun i => l.getD i d) = l := by
  apply List.ext_getElem (by simp)
  intro i h1 h2
  simp only [List.getElem_map, List.getElem_range]
  exact (List.getD_eq_getElem l d h2).symm ▸ rfl

/-- C2 (amended): on a non-empty well-formed store, `query` returns the
records at the first `top_k` argsort indices: their similarities are
weakly descending, the similarity of every selected record is at least
that of every unselected record, `min top_k n` records are returned, and when
`top_k ≥ n` the result is a permutation of all stored records.  Tie order
among equal similarities is whatever permutation the default (unstable)
quicksort behind `np.argsort` produced — insertion order is NOT
guaranteed. -/
theorem query_top_k (M : Type) [Inhabited M] (db : VectorDB M)
    (fs : Persisted M) (sims : List ℚ) (perm : List Nat) (top_k : Nat)
    (mtx : List (List ℚ)) (hemb : db.emb = some mtx) (hn : 0 < mtx.length)
    (hdocs : db.docs.length = mtx.length)
    (hmetas : db.metas.length = mtx.length)
    (hsims : sims.length = mtx.length) (hperm : argsortOK sims perm) :
    (VectorDB.query M db fs sims perm top_k).2 =
      ⟨[(perm.take top_k).map (fun i => db.docs.getD i [])],
       [(perm.take top_k).map (fun i => db.metas.getD i default)],
       [(perm.take top_k).map (fun i => 1 - sims.getD i 0)]⟩ ∧
    (perm.take top_k).length = min top_k mtx.length ∧
    ((perm.take top_k).map (fun i => sims.getD i 0)).Sorted (· ≥ ·) ∧
    (∀ i ∈ perm.take top_k, ∀ j, j < mtx.length → j ∉ perm.take top_k →
      sims.getD j 0 ≤ sims.getD i 0) ∧
    (mtx.length ≤ top_k →
      ((perm.take top_k).map (fun i => db.docs.getD i [])).Perm db.docs ∧
      ((perm.take top_k).map (fun i => db.metas.getD i default)).Perm db.metas) := by
  obtain ⟨hp, hs⟩ := hperm
  have hplen : perm.length = mtx.length := by
    have := hp.length_eq
    simpa [hsims] using this
  refine ⟨?_, ?_, ?_, ?_, ?_⟩
  · have hcond : ¬(db.emb = none ∨ (db.emb.getD []).length = 0) := by
      rw [hemb]
      simp only [Option.getD_some]
      push_neg
      exact ⟨by simp, by omega⟩
    unfold VectorDB.query
    rw [if_neg hcond]
  · rw [List.length_take, hplen]
  · rw [List.map_take]
    exact List.Pairwise.sublist (List.take_sublist _ _) hs
  · intro i hi j hj hnj
    have hjp : j ∈ perm := hp.mem_iff.mpr (List.mem_range.mpr (by omega))
    have hjd : j ∈ perm.drop top_k := by
      have hsplit : j ∈ perm.take top_k ++ perm.drop top_k := by
        rw [List.take_append_drop]
        exact hjp
      rcases List.mem_append.mp hsplit with h | h
      · exact absurd h hnj
      · exact h
    have hglue : ((perm.take top_k).map (fun i => sims.getD i 0) ++
        (perm.drop top_k).map (fun i => sims.getD i 0)).Pairwise (· ≥ ·) := by
      rw [← List.map_append, List.take_append_drop]
      exact hs
    exact (List.pairwise_append.mp hglue).2.2 _ (List.mem_map_of_mem _ hi) _
      (List.mem_map_of_mem _ hjd)
  · intro hk
    have htake : perm.take top_k = perm :=
      List.take_of_length_le (by omega)
    constructor
    · rw [htake]
      have h2 : (List.range sims.length).map (fun i => db.docs.getD i []) =
          db.docs := by
        have h3 : sims.length = db.docs.length := by omega
        rw [h3]
        exact map_getD_range db.docs []
      conv_rhs => rw [← h2]
      exact hp.map (fun i => db.docs.getD i [])
    · rw [htake]
      have h2 : (List.range sims.length).map (fun i => db.metas.getD i default) =
          db.metas := by
        have h3 : sims.length = db.metas.length := by omega
        rw [h3]
        exact map_getD_range db.metas default
      conv_rhs => rw [← h2]
      exact hp.map (fun i => db.metas.getD i default)

/-- C2 counterexample: two records with identical embeddings, hence equal
similarities.  The permutation `[1, 0]` satisfies the numpy argsort
contract (`argsortOK`), yet with it `query` returns the documents in
reverse insertion order — stable insertion-order tie-breaking is not
guaranteed by the default (unstable) quicksort of `np.argsort`. -/
theorem query_tie_order_cex :
    argsortOK [1, 1] [1, 0] ∧
    (VectorDB.query Unit
        ⟨[['x'], ['y']], [['x'], ['y']], [(), ()], some [[1], [1]]⟩
        ⟨none, none⟩ [1, 1] [1, 0] 2).2.documents = [[['y'], ['x']]] ∧
    ([[['y'], ['x']]] : List (List (List Char))) ≠ [[['x'], ['y']]] := by
  refine ⟨⟨by decide, by decide⟩, by decide, by decide⟩

/-- Witness for C2 at a concrete store and argsort permutation. -/
theorem query_top_k_witness :
    (VectorDB.query Unit ⟨[['x'], ['y']], [['x'], ['y']], [(), ()],
        some [[1], [0]]⟩ ⟨none, none⟩ [3, 2] [0, 1] 2).2 =
      ⟨[(([0, 1] : List Nat).take 2).map
          (fun i => ([['x'], ['y']] : List (List Char)).getD i [])],
       [(([0, 1] : List Nat).take 2).map
          (fun i => ([(), ()] : List Unit).getD i default)],
       [(([0, 1] : List Nat).take 2).map
          (fun i => 1 - ([3, 2] : List ℚ).getD i 0)]⟩ ∧
    (([0, 1] : List Nat).take 2).length = min 2 ([[1], [0]] : List (List ℚ)).length ∧
    ((([0, 1] : List Nat).take 2).map
      (fun i => ([3, 2] : List ℚ).getD i 0)).Sorted (· ≥ ·) ∧
    (∀ i ∈ ([0, 1] : List Nat).take 2, ∀ j,
      j < ([[1], [0]] : List (List ℚ)).length → j ∉ ([0, 1] : List Nat).take 2 →
      ([3, 2] : List ℚ).getD j 0 ≤ ([3, 2] : List ℚ).getD i 0) ∧
    (([[1], [0]] : List (List ℚ)).length ≤ 2 →
      ((([0, 1] : List Nat).take 2).map
        (fun i => ([['x'], ['y']] : List (List Char)).getD i [])).Perm
        [['x'], ['y']] ∧
      ((([0, 1] : List Nat).take 2).map
        (fun i => ([(), ()] : List Unit).getD i default)).Perm [(), ()]) :=
  query_top_k Unit
    ⟨[['x'], ['y']], [['x'], ['y']], [(), ()], some [[1], [0]]⟩
    ⟨none, none⟩ [3, 2] [0, 1] 2 [[1], [0]] rfl (by decide) rfl rfl rfl
    ⟨by decide, by decide⟩

/-! ### Context-assembly theorems (C7) -/

/-- Greedy prefix characterisation of the `format_context` loop: the
items are an unsplit prefix of the tagged chunks, the accumulated size
stays within budget, and the first excluded chunk (if any) would have
exceeded it. -/
lemma formatItems_spec (max_chars : Nat) {α : Type} :
    ∀ (zs : List (List Char × ChunkMeta × α)) (total : Nat),
      total ≤ max_chars →
      ∃ k, k ≤ zs.length ∧
        formatItems max_chars zs total =
          (zs.map (fun z => taggedChunk z.1 z.2.1)).take k ∧
        total + (((zs.map (fun z => taggedChunk z.1 z.2.1)).take k).map
          List.length).sum ≤ max_chars ∧
        (k < zs.length → max_chars < total +
          (((zs.map (fun z => taggedChunk z.1 z.2.1)).take k).map
            List.length).sum +
          ((zs.map (fun z => taggedChunk z.1 z.2.1)).getD k []).length) := by
  intro zs
  induction zs with
  | nil =>
    intro total h
    exact ⟨0, le_rfl, rfl, by simpa using h, fun hk => absurd hk (by simp)⟩
  | cons z rest ih =>
    intro total h
    obtain ⟨d, m, a⟩ := z
    by_cases hb : max_chars < total + (taggedChunk d m).length
    · refine ⟨0, by simp, ?_, by simpa using h, ?_⟩
      · unfold formatItems
        rw [if_pos hb]
        rfl
      · intro _
        simpa using hb
    · push_neg at hb
      obtain ⟨k, hk1, hk2, hk3, hk4⟩ := ih (total + (taggedChunk d m).length) hb
      refine ⟨k + 1, by simpa using hk1, ?_, ?_, ?_⟩
      · unfold formatItems
        rw [if_neg (by omega)]
        simp only [List.map_cons, List.take_succ_cons]
        rw [hk2]
      · simp only [List.map_cons, List.take_succ_cons, List.sum_cons]
        omega
      · intro hkl
        have hrest := hk4 (by simpa using hkl)
        simp only [List.map_cons, List.take_succ_cons, List.sum_cons,
          List.getD_cons_succ]
        omega

/-- C7: `format_context` joins an unsplit prefix of the citation-tagged
chunks in ranked order; the accumulated character count stays within the
9000 budget; the first excluded chunk (if any) would have exceeded the
budget; and at least one chunk is returned whenever the first tagged
chunk alone fits. -/
theorem format_context_greedy {α : Type} (docs : List (List Char))
    (metas : List ChunkMeta) (distances : List α) :
    ∃ k, k ≤ (docs.zip (metas.zip distances)).length ∧
      formatItems 9000 (docs.zip (metas.zip distances)) 0 =
        ((docs.zip (metas.zip distances)).map
          (fun z => taggedChunk z.1 z.2.1)).take k ∧
      ((((docs.zip (metas.zip distances)).map
        (fun z => taggedChunk z.1 z.2.1)).take k).map List.length).sum ≤ 9000 ∧
      (k < (docs.zip (metas.zip distances)).length →
        9000 < ((((docs.zip (metas.zip distances)).map
          (fun z => taggedChunk z.1 z.2.1)).take k).map List.length).sum +
          (((docs.zip (metas.zip distances)).map
            (fun z => taggedChunk z.1 z.2.1)).getD k []).length) ∧
      format_context docs metas distances 9000 =
        joinSep "\n---\n".data (((docs.zip (metas.zip distances)).map
          (fun z => taggedChunk z.1 z.2.1)).take k) ∧
      (0 < (docs.zip (metas.zip distances)).length →
        (((docs.zip (metas.zip distances)).map
          (fun z => taggedChunk z.1 z.2.1)).getD 0 []).length ≤ 9000 →
        formatItems 9000 (docs.zip (metas.zip distances)) 0 ≠ []) := by
  obtain ⟨k, hk1, hk2, hk3, hk4⟩ :=
    formatItems_spec 9000 (docs.zip (metas.zip distances)) 0 (by omega)
  refine ⟨k, hk1, hk2, by simpa using hk3, ?_, ?_, ?_⟩
  · intro hkl
    have := hk4 hkl
    omega
  · unfold format_context
    rw [hk2]
  · intro hlen hfirst
    rw [hk2]
    intro hempty
    rcases List.take_eq_nil_iff.mp hempty with hk0 | hnil
    · subst hk0
      have := hk4 (by omega)
      simp only [List.take_zero, List.map_nil, List.sum_nil] at this
      omega
    · rw [List.map_eq_nil_iff] at hnil
      rw [hnil] at hlen
      simp at hlen

/-- Witness for C7 at a concrete retrieved list. -/
theorem format_context_greedy_witness :
    ∃ k, k ≤ (([['h', 'i']] : List (List Char)).zip
        (([⟨some ['s'], some 1⟩] : List ChunkMeta).zip ([3] : List ℚ))).length ∧
      formatItems 9000 (([['h', 'i']] : List (List Char)).zip
        (([⟨some ['s'], some 1⟩] : List ChunkMeta).zip ([3] : List ℚ))) 0 =
        ((([['h', 'i']] : List (List Char)).zip
          (([⟨some ['s'], some 1⟩] : List ChunkMeta).zip ([3] : List ℚ))).map
          (fun z => taggedChunk z.1 z.2.1)).take k ∧
      ((((([['h', 'i']] : List (List Char)).zip
        (([⟨some ['s'], some 1⟩] : List ChunkMeta).zip ([3] : List ℚ))).map
        (fun z => taggedChunk z.1 z.2.1)).take k).map List.length).sum ≤ 9000 ∧
      (k < (([['h', 'i']] : List (List Char)).zip
          (([⟨some ['s'], some 1⟩] : List ChunkMeta).zip ([3] : List ℚ))).length →
        9000 < ((((([['h', 'i']] : List (List Char)).zip
          (([⟨some ['s'], some 1⟩] : List ChunkMeta).zip ([3] : List ℚ))).map
          (fun z => taggedChunk z.1 z.2.1)).take k).map List.length).sum +
          (((([['h', 'i']] : List (List Char)).zip
            (([⟨some ['s'], some 1⟩] : List ChunkMeta).zip ([3] : List ℚ))).map
            (fun z => taggedChunk z.1 z.2.1)).getD k []).length) ∧
      format_context [['h', 'i']] [⟨some ['s'], some 1⟩] ([3] : List ℚ) 9000 =
        joinSep "\n---\n".data ((((([['h', 'i']] : List (List Char)).zip
          (([⟨some ['s'], some 1⟩] : List ChunkMeta).zip ([3] : List ℚ)))).map
          (fun z => taggedChunk z.1 z.2.1)).take k) ∧
      (0 < (([['h', 'i']] : List (List Char)).zip
          (([⟨some ['s'], some 1⟩] : List ChunkMeta).zip ([3] : List ℚ))).length →
        (((([['h', 'i']] : List (List Char)).zip
          (([⟨some ['s'], some 1⟩] : List ChunkMeta).zip ([3] : List ℚ))).map
          (fun z => taggedChunk z.1 z.2.1)).getD 0 []).length ≤ 9000 →
        formatItems 9000 (([['h', 'i']] : List (List Char)).zip
          (([⟨some ['s'], some 1⟩] : List ChunkMeta).zip ([3] : List ℚ))) 0 ≠ []) :=
  format_context_greedy [['h', 'i']] [⟨some ['s'], some 1⟩] ([3] : List ℚ)

/-! ### Fingerprint theorems (C9) -/

/-- C9: the id is a deterministic function of `(source, page, text)`:
any two chunks agreeing on all three fields get the same id in any two
runs. -/
theorem stable_id_deterministic (s1 s2 : List Char) (p1 p2 : Option Int)
    (t1 t2 : List Char) (hs : s1 = s2) (hp : p1 = p2) (ht : t1 = t2) :
    stable_id s1 p1 t1 = stable_id s2 p2 t2 := by
  subst hs
  subst hp
  subst ht
  rfl

/-- Witness for C9 at a concrete chunk. -/
theorem stable_id_deterministic_witness :
    stable_id ['d'] (some 1) ['x'] = stable_id ['d'] (some 1) ['x'] :=
  stable_id_deterministic ['d'] ['d'] (some 1) (some 1) ['x'] ['x'] rfl rfl rfl
